import Mathlib

/-!
# dctoolkit: upload servicing (`upload.go`) and the protocol base (`protocol.go`)

A shallow embedding of `newUpload`, `upload.terminate`, `upload.do` and of
`protocolBase.Close` / `protocolBase.SetSyncMode`, followed by the properties of
slot admission, range handling, the `ADCSND` reply, payload streaming and
send-channel lifecycle.

Conventions of the embedding:

* Go pointers are natural numbers indexing a heap held in `World`.
* `uint64` / `int64` values are `Nat` / `Int`, reduced explicitly where the Go
  code converts or may overflow.
* `dolog` calls and `lastPrintTime` only produce log lines and are left out.
* Go maps are association lists; a `range` loop visits them in list order.
* A panic is an explicit outcome.
-/

namespace dctk

/-! ## Machine integers -/

/-- Go conversion `uint64(x)`: reduction modulo `2^64`. -/
def uint64 (x : Int) : Nat := (x % 2 ^ 64).toNat

/-- Go conversion `int64(x)` of a `uint64` value: two-complement reading, a
negative number from `2^63` on. -/
def int64 (x : Nat) : Int :=
  if 2 ^ 63 ≤ x % 2 ^ 64 then Int.negSucc (2 ^ 64 - x % 2 ^ 64 - 1) else Int.ofNat (x % 2 ^ 64)

/-- Subtraction of two `uint64` values, wrapping as Go does: the difference
when nothing is borrowed, and `2^64` more than the (negative) difference
otherwise. -/
def subU64 (a b : Nat) : Nat :=
  if b % 2 ^ 64 ≤ a % 2 ^ 64 then a % 2 ^ 64 - b % 2 ^ 64
  else a % 2 ^ 64 + (2 ^ 64 - b % 2 ^ 64)

/-- Addition of two `uint64` values, wrapping as Go does. -/
def addU64 (a b : Nat) : Nat := (a + b) % 2 ^ 64

/-! ## Errors and outcomes -/

/-- Error values returned by `newUpload` and `upload.do`: the dedicated
`errorNoSlots` type, errors built with `fmt.Errorf`, and errors handed back by
the operating system or the connection. -/
inductive error where
  | errorNoSlots
  | Errorf (msg : String)
  | os (msg : String)
  deriving DecidableEq, Repr

/-- The text of `(*errorNoSlots).Error` and of the other error values. -/
def error.Error : error → String
  | .errorNoSlots => "no slots available"
  | .Errorf msg => msg
  | .os msg => msg

/-- Run-time panics that the embedded code can raise. -/
inductive Panic where
  | indexOutOfRange
  | nilDereference
  | terminateUnsupported (state : String)
  | closeOfClosedChannel
  deriving DecidableEq, Repr

/-- Result of a call: normal return with `nil`, return of an error, or panic. -/
inductive Outcome where
  | ok
  | err (e : error)
  | panic (p : Panic)
  deriving DecidableEq, Repr

/-! ## Readers, connections -/

/-- A byte of payload. -/
abbrev Byte := Nat

/-- An `io.ReadCloser` as `upload` uses it (`bytes.Reader` behind `NopCloser`,
or an `*os.File` after `Seek`): the bytes from the read position to the end of
the stream, whether the stream ends in an I/O error instead of `io.EOF`, and
whether `Close` was called. -/
structure Reader where
  data : List Byte
  fails : Bool
  closed : Bool
  deriving DecidableEq, Repr

/-- Error slot of `Read`: `nil`, `io.EOF`, or another error. -/
inductive ReadErr where
  | nil
  | EOF
  | other
  deriving DecidableEq, Repr

/-- `Read(buf)` with `len(buf) = n`: copies at most `n` pending bytes; at the
end of the stream it returns `0, io.EOF` (or `0, err` for a failing stream). -/
def Reader.Read (r : Reader) (n : Nat) : List Byte × ReadErr × Reader :=
  if r.data.isEmpty then
    ([], if r.fails then ReadErr.other else ReadErr.EOF, r)
  else
    (r.data.take n, ReadErr.nil, { r with data := r.data.drop n })

/-- `Close()` of the reader. -/
def Reader.Close (r : Reader) : Reader := { r with closed := true }

/-- `bytes.NewReader(b)` wrapped by `ioutil.NopCloser`. -/
def bytesReader (b : List Byte) : Reader := { data := b, fails := false, closed := false }

/-- The message `msgCommand{name, payload}` pushed on a connection. -/
structure msgCommand where
  name : String
  payload : String
  deriving DecidableEq, Repr

/-- Modelled from the spec: the connection object behind `peerConn.conn`, whose
declaration is not part of the sources at hand. It records the messages pushed
on `Send`, the binary-mode and write-compression switches, every chunk handed
to `WriteBinary` together with the compression switch in force at that moment,
and (environment) after how many further `WriteBinary` calls the socket breaks
(`none`: never). -/
structure Conn where
  Send : List msgCommand
  binaryMode : Bool
  writeCompression : Bool
  wire : List (Bool × List Byte)
  writesLeft : Option Nat
  deriving DecidableEq, Repr

/-- Modelled from the spec: `conn.SetBinaryMode(val)`, missing from the sources;
it switches the connection into or out of binary mode. -/
def Conn.SetBinaryMode (c : Conn) (val : Bool) : Conn := { c with binaryMode := val }

/-- Modelled from the spec: `conn.SetWriteCompression(val)`, missing from the
sources; it switches the write side into or out of zlib compression, as
`zlibSwitchableWriter.SetZlib` of `protocol.go` does. -/
def Conn.SetWriteCompression (c : Conn) (val : Bool) : Conn :=
  { c with writeCompression := val }

/-- Modelled from the spec: `conn.WriteBinary(chunk)`, missing from the sources;
it writes the chunk through the active writer, or fails when the socket is
broken. -/
def Conn.WriteBinary (c : Conn) (chunk : List Byte) : Conn × Option error :=
  match c.writesLeft with
  | some 0 => (c, some (error.os "write failed"))
  | some (k + 1) =>
    ({ c with wire := c.wire ++ [(c.writeCompression, chunk)], writesLeft := some k }, none)
  | none => ({ c with wire := c.wire ++ [(c.writeCompression, chunk)] }, none)

/-- The fields of `peerConn` that `upload.go` touches: `state`, `conn` and the
number of signals pushed on `wakeUp`. -/
structure peerConn where
  state : String
  conn : Conn
  wakeUp : Nat
  deriving DecidableEq, Repr

/-! ## Share tree -/

/-- A shared file: its TTH and its TTH leaves. -/
structure shareFile where
  tth : String
  tthl : List Byte
  deriving Repr

/-- A shared directory: `files` and `dirs`, both maps keyed by name. -/
inductive shareDirectory where
  | mk (files : List (String × shareFile)) (dirs : List (String × shareDirectory))

/-- A root of the share tree: its path on disk and its directory node. -/
structure shareRootDirectory where
  path : String
  shareDirectory : shareDirectory

/-! ## Environment -/

/-- An opened `*os.File`: its content and whether reading it ends in an I/O
error. -/
structure osFile where
  content : List Byte
  readFails : Bool
  deriving DecidableEq, Repr

/-- Helpers of the package that are not part of the sources at hand
(`atoui64`, `atoi64`) and the standard-library / operating-system calls made by
`newUpload`, taken as parameters. `Stat` yields `finfo.Size()`. -/
structure Env where
  atoui64 : String → Nat
  atoi64 : String → Int
  Join : String → String → String
  EvalSymlinks : String → Except String String
  Stat : String → Except String Int
  Open : String → Except String osFile

/-- `f.Seek(off, 0)` on a regular file: fails for a negative offset, otherwise
positions the file at `off` (possibly past its end). -/
def osFile.Seek (f : osFile) (off : Int) : Except String Reader :=
  match off with
  | Int.negSucc _ => Except.error "invalid argument"
  | Int.ofNat k => Except.ok { data := f.content.drop k, fails := f.readFails, closed := false }

/-! ## Client, uploads, world -/

/-- The `upload` struct (`client` is the single client of the world;
`lastPrintTime` only drives logging). -/
structure upload where
  state : String
  pconn : Nat
  reader : Option Reader
  compressed : Bool
  request : String
  start : Nat
  length : Nat
  offset : Nat
  deriving DecidableEq, Repr

/-- The fields of `Client` that `upload.go` touches. `transfers` is the key set
of the `transfers` map (upload pointers); `wg` is the wait-group counter. -/
structure Client where
  PeerDisableCompression : Bool
  uploadSlotAvail : Int
  fileList : List Byte
  shareTree : List shareRootDirectory
  transfers : List Nat
  wg : Int

/-- Program counter of a goroutine running `upload.do`: before the streaming
closure, or before the final `Safe` closure with the error the streaming
closure returned. -/
inductive doPC where
  | body
  | final (err : Option error)
  deriving DecidableEq, Repr

/-- A goroutine started by `go u.do()`. -/
structure Goroutine where
  u : Nat
  pc : doPC
  deriving DecidableEq, Repr

/-- The state of the program: the client, the heaps of peer connections and of
uploads, the next free upload pointer, and the running `do` goroutines. -/
structure World where
  client : Client
  pconns : Nat → peerConn
  uploads : Nat → upload
  nextUpload : Nat
  goroutines : List Goroutine

/-! ## `newUpload` -/

/-- The loop over `dir.files` in `scanDir`. -/
def scanFiles (env : Env) (reqTTH rpath : String) :
    List (String × shareFile) → Option (String × List Byte)
  | [] => none
  | (fname, file) :: rest =>
    if file.tth = reqTTH then some (env.Join rpath fname, file.tthl)
    else scanFiles env reqTTH rpath rest

mutual
/-- The closure `scanDir`: `some (fpath, tthl)` when it returns `true` after
assigning `fpath` and `tthl`, `none` when it returns `false`. -/
def scanDir (env : Env) (reqTTH rpath : String) :
    shareDirectory → Option (String × List Byte)
  | .mk files dirs =>
    match scanFiles env reqTTH rpath files with
    | some r => some r
    | none => scanSubDirs env reqTTH rpath dirs
/-- The loop over `dir.dirs` in `scanDir`. -/
def scanSubDirs (env : Env) (reqTTH rpath : String) :
    List (String × shareDirectory) → Option (String × List Byte)
  | [] => none
  | (sname, sdir) :: rest =>
    match scanDir env reqTTH (env.Join rpath sname) sdir with
    | some r => some r
    | none => scanSubDirs env reqTTH rpath rest
end

/-- The closure that walks `client.shareTree` and yields `(fpath, tthl)`, both
zero values when no file has the requested TTH. -/
def findByTTH (env : Env) (reqTTH : String) : List shareRootDirectory → String × List Byte
  | [] => ("", [])
  | dir :: rest =>
    match scanDir env reqTTH dir.path dir.shareDirectory with
    | some r => r
    | none => findByTTH env reqTTH rest

/-- The anonymous closure of `newUpload` that selects the source of the upload:
it yields the upload with `reader` and `length` set, or an error. -/
def newUpload.source (env : Env) (client : Client) (u : upload) (reqLength : Int)
    (reqTTH : String) : Except error upload :=
  -- upload is file list
  if u.request = "file files.xml.bz2" then
    if u.start ≠ 0 ∨ reqLength ≠ -1 then
      Except.error (error.Errorf "filelist seeking is not supported")
    else
      Except.ok { u with reader := some (bytesReader client.fileList),
                         length := uint64 client.fileList.length }
  else
    -- upload is any other file by tth
    let found := findByTTH env reqTTH client.shareTree
    let fpath := found.1
    let tthl := found.2
    if fpath = "" then Except.error (error.Errorf "file does not exists")
    -- upload is tthl
    else if "tthl TTH".toList.isPrefixOf u.request.toList then
      if u.start ≠ 0 ∨ reqLength ≠ -1 then
        Except.error (error.Errorf "tthl seeking is not supported")
      else
        Except.ok { u with reader := some (bytesReader tthl), length := uint64 tthl.length }
    else
      -- solve symbolic links
      match env.EvalSymlinks fpath with
      | Except.error e => Except.error (error.os e)
      | Except.ok fpath =>
        -- get size
        match env.Stat fpath with
        | Except.error e => Except.error (error.os e)
        | Except.ok size =>
          -- open file
          match env.Open fpath with
          | Except.error e => Except.error (error.os e)
          | Except.ok f =>
            -- apply start
            match f.Seek (int64 u.start) with
            | Except.error e => Except.error (error.os e)
            | Except.ok rd =>
              -- set real length
              let maxLength := subU64 (uint64 size) u.start
              if reqLength ≠ -1 then
                if uint64 reqLength > maxLength then
                  Except.error (error.Errorf "length too big")
                else
                  Except.ok { u with length := uint64 reqLength, reader := some rd }
              else
                Except.ok { u with length := maxLength, reader := some rd }

/-- The payload of the `ADCSND` message:
`fmt.Sprintf("%s %d %d%s", u.request, u.start, u.length, zl1)`. -/
def sndPayload (u : upload) : String :=
  u.request ++ " " ++ toString u.start ++ " " ++ toString u.length ++
    (if u.compressed then " ZL1" else "")

/-- The function `newUpload(client, pconn, args)`. -/
def newUpload (env : Env) (w : World) (pconn : Nat) (args : List String) : Outcome × World :=
  match args with
  | _ :: a1 :: _ :: a3 :: a4 :: a5 :: a6 :: _ =>
    let u : upload :=
      { state := "transfering", pconn := pconn, reader := none, compressed := false,
        request := "", start := 0, length := 0, offset := 0 }
    let u := { u with request := a1 }
    let u := { u with start := uint64 (env.atoui64 a4) }
    let reqLength := int64 (uint64 (env.atoi64 a5))
    let reqTTH := a3
    let u := { u with compressed := (w.client.PeerDisableCompression == false && a6 != "") }
    -- check available slots
    if w.client.uploadSlotAvail ≤ 0 then (Outcome.err error.errorNoSlots, w)
    else
      match newUpload.source env w.client u reqLength reqTTH with
      | Except.error e => (Outcome.err e, w)
      | Except.ok u =>
        let uid := w.nextUpload
        let pc := w.pconns u.pconn
        let pc := { pc with conn := { pc.conn with
                      Send := pc.conn.Send ++ [{ name := "ADCSND", payload := sndPayload u }] } }
        let client := { w.client with transfers := w.client.transfers.insert uid }
        let client := { client with uploadSlotAvail := client.uploadSlotAvail - 1 }
        let client := { client with wg := client.wg + 1 }
        (Outcome.ok,
          { client := client
            pconns := Function.update w.pconns u.pconn pc
            uploads := Function.update w.uploads uid u
            nextUpload := uid + 1
            goroutines := w.goroutines ++ [{ u := uid, pc := doPC.body }] })
  | _ => (Outcome.panic Panic.indexOutOfRange, w)

/-! ## `upload.terminate` -/

/-- How control leaves the `switch` of `upload.terminate`. -/
inductive SwitchExit where
  | returned
  | panicked (p : Panic)
  | fellThrough

/-- The `switch u.state` of `upload.terminate`: the `terminated` case returns,
the `transfering` case is commented out (`TODO`), the default case panics. -/
def upload.terminate.switch (state : String) : SwitchExit :=
  if state = "terminated" then SwitchExit.returned
  else SwitchExit.panicked (Panic.terminateUnsupported state)

/-- The statements of `upload.terminate` that follow the `switch`. -/
def upload.terminate.tail (w : World) (uid : Nat) : World :=
  let u := { w.uploads uid with state := "terminated" }
  let client := { w.client with transfers := w.client.transfers.filter (fun t => t ≠ uid) }
  let pc := w.pconns u.pconn
  let pc := { pc with state := "wait_upload", wakeUp := pc.wakeUp + 1 }
  { w with client := client
           uploads := Function.update w.uploads uid u
           pconns := Function.update w.pconns u.pconn pc }

/-- The method `(u *upload) terminate()`. -/
def upload.terminate (w : World) (uid : Nat) : Outcome × World :=
  match upload.terminate.switch (w.uploads uid).state with
  | SwitchExit.returned => (Outcome.ok, w)
  | SwitchExit.panicked p => (Outcome.panic p, w)
  | SwitchExit.fellThrough => (Outcome.ok, upload.terminate.tail w uid)

/-! ## `upload.do` -/

/-- Size of the read buffer of `upload.do`, `var buf [1024 * 1024]byte`. -/
def bufSize : Nat := 1024 * 1024

/-- The `for` loop of `upload.do`, with a bound on the number of iterations:
it yields the reader, the connection, `u.offset` and the error the closure
returns from inside the loop (`none` when the loop ends with `break`). The
outer `none` means the bound was exhausted. -/
def upload.do.loop : Nat → Reader → Conn → Nat → Option (Reader × Conn × Nat × Option error)
  | 0, _, _, _ => none
  | fuel + 1, rd, conn, offset =>
    match rd.Read bufSize with
    | (buf, err, rd1) =>
      if err = ReadErr.other then some (rd1, conn, offset, some (error.os "read failed"))
      else if buf.length = 0 then some (rd1, conn, offset, none)
      else
        let offset1 := addU64 offset buf.length
        match conn.WriteBinary buf with
        | (conn1, some e) => some (rd1, conn1, offset1, some e)
        | (conn1, none) => upload.do.loop fuel rd1 conn1 offset1

/-- Result of the streaming closure of `upload.do`. -/
inductive BodyResult where
  | returned (w : World) (err : Option error)
  | panicked (p : Panic)
  | outOfFuel

/-- The first closure of `upload.do`: switch the connection to binary mode and
write compression, stream the reader, switch both off and set the state to
`success`. Each `Read` of a non-empty stream consumes at least one byte, so
`len(data) + 1` iterations are enough (see `upload.do.loop_total`). -/
def upload.do.body (w : World) (uid : Nat) : BodyResult :=
  let u := w.uploads uid
  let pc := w.pconns u.pconn
  let conn := pc.conn.SetBinaryMode true
  let conn := conn.SetWriteCompression true
  match u.reader with
  | none => BodyResult.panicked Panic.nilDereference
  | some rd =>
    match upload.do.loop (rd.data.length + 1) rd conn u.offset with
    | none => BodyResult.outOfFuel
    | some (rd1, conn1, offset1, some e) =>
      BodyResult.returned
        { w with pconns := Function.update w.pconns u.pconn { pc with conn := conn1 }
                 uploads := Function.update w.uploads uid
                   { u with reader := some rd1, offset := offset1 } }
        (some e)
    | some (rd1, conn1, offset1, none) =>
      let conn2 := conn1.SetWriteCompression false
      let conn2 := conn2.SetBinaryMode false
      BodyResult.returned
        { w with pconns := Function.update w.pconns u.pconn { pc with conn := conn2 }
                 uploads := Function.update w.uploads uid
                   { u with reader := some rd1, offset := offset1, state := "success" } }
        none

/-- The final `Safe` closure of `upload.do`, followed by the deferred
`wg.Done()`. The error is only logged. -/
def upload.do.final (w : World) (uid : Nat) (_err : Option error) : World :=
  let u := w.uploads uid
  let pc := w.pconns u.pconn
  let released :=
    { pc with state := "wait_upload", wakeUp := pc.wakeUp + 1 }
  -- switch u.state
  let w1 : World :=
    if u.state = "terminated" then w
    else if u.state = "success" then
      { w with client := { w.client with
                 transfers := w.client.transfers.filter (fun t => t ≠ uid) }
               pconns := Function.update w.pconns u.pconn released }
    else
      { w with client := { w.client with
                 transfers := w.client.transfers.filter (fun t => t ≠ uid) }
               pconns := Function.update w.pconns u.pconn released }
  -- u.reader.Close()
  let u1 : upload :=
    match u.reader with
    | some rd => { u with reader := some rd.Close }
    | none => u
  let w2 := { w1 with uploads := Function.update w1.uploads uid u1 }
  -- u.client.uploadSlotAvail += 1
  let w3 := { w2 with client := { w2.client with
                uploadSlotAvail := w2.client.uploadSlotAvail + 1 } }
  -- defer u.client.wg.Done()
  { w3 with client := { w3.client with wg := w3.client.wg - 1 } }

/-- The method `(u *upload) do()` run without interleaving: `none` when the
streaming closure panics or exhausts its bound. -/
def upload.do (w : World) (uid : Nat) : Option World :=
  match upload.do.body w uid with
  | BodyResult.returned w1 err => some (upload.do.final w1 uid err)
  | BodyResult.panicked _ => none
  | BodyResult.outOfFuel => none

/-! ## Interleaving of requests and upload goroutines -/

/-- A scheduling step: a `newUpload` call on the control task, or one phase of
the `do` goroutine of an upload (its streaming closure, then its final `Safe`
closure). -/
inductive Action where
  | request (pconn : Nat) (args : List String)
  | advance (uid : Nat)

/-- One scheduling step; `none` when the step panics or is not enabled. -/
def step (env : Env) (w : World) : Action → Option World
  | Action.request pconn args =>
    match newUpload env w pconn args with
    | (Outcome.panic _, _) => none
    | (_, w1) => some w1
  | Action.advance uid =>
    match w.goroutines.find? (fun g => g.u = uid) with
    | none => none
    | some g =>
      match g.pc with
      | doPC.body =>
        match upload.do.body w uid with
        | BodyResult.returned w1 err =>
          some { w1 with goroutines := w1.goroutines.erase g ++ [{ u := uid, pc := doPC.final err }] }
        | BodyResult.panicked _ => none
        | BodyResult.outOfFuel => none
      | doPC.final err =>
        let w1 := upload.do.final w uid err
        some { w1 with goroutines := w1.goroutines.erase g }

/-- A sequence of scheduling steps. -/
def run (env : Env) : World → List Action → Option World
  | w, [] => some w
  | w, a :: rest =>
    match step env w a with
    | none => none
    | some w1 => run env w1 rest

/-- An initial state: every slot is free, no transfer is registered and no
upload goroutine runs. -/
def World.initial (w : World) (total : Nat) : Prop :=
  w.client.uploadSlotAvail = total ∧ w.client.transfers = [] ∧ w.goroutines = []



/-! ## `protocolBase`: `Close` and `SetSyncMode` -/

/-- The fields of `protocolBase` that `Close` and `SetSyncMode` touch, together
with the channels and goroutines they act on: the channel held in `sendChan`,
the next channel `make` will hand out, the channels closed so far, the
`writeReceiver` goroutines still ranging over a channel (listed by that
channel), the number of `writeReceiver` goroutines that left their loop and wait
to hand over on `writerJoined`, and how many times `closer.Close()` was
called. -/
structure protocolBase where
  terminated : Bool
  syncMode : Bool
  sendChan : Nat
  nextChan : Nat
  closedChans : List Nat
  receivers : List Nat
  joining : Nat
  closerCloses : Nat
  deriving DecidableEq, Repr

/-- The state built by `newProtocolBase`: a fresh send channel with one
`writeReceiver` goroutine ranging over it. -/
def newProtocolBase : protocolBase :=
  { terminated := false, syncMode := false, sendChan := 0, nextChan := 1, closedChans := [],
    receivers := [0], joining := 0, closerCloses := 0 }

/-- How a call ends: it returns, it panics, or it blocks forever. -/
inductive CallResult where
  | returned (p : protocolBase)
  | panicked (e : Panic)
  | blocked
  deriving DecidableEq, Repr

/-- The statement `close(p.sendChan)`: closing a closed channel panics;
otherwise the `writeReceiver` goroutines ranging over the channel leave their
loop and proceed to `p.writerJoined <- struct{}{}`. -/
def protocolBase.closeSendChan (p : protocolBase) : Except Panic protocolBase :=
  if p.sendChan ∈ p.closedChans then Except.error Panic.closeOfClosedChannel
  else
    Except.ok
      { p with closedChans := p.sendChan :: p.closedChans
               receivers := p.receivers.filter (fun c => c ≠ p.sendChan)
               joining := p.joining + (p.receivers.filter (fun c => c = p.sendChan)).length }

/-- The statement `<-p.writerJoined`: it receives from a waiting
`writeReceiver`, or blocks forever when none is waiting (`none`). -/
def protocolBase.recvWriterJoined (p : protocolBase) : Option protocolBase :=
  if p.joining = 0 then none else some { p with joining := p.joining - 1 }

/-- The statements `close(p.sendChan); <-p.writerJoined`. -/
def protocolBase.closeAndJoin (p : protocolBase) : CallResult :=
  match p.closeSendChan with
  | Except.error e => CallResult.panicked e
  | Except.ok p1 =>
    match p1.recvWriterJoined with
    | none => CallResult.blocked
    | some p2 => CallResult.returned p2

/-- The method `(p *protocolBase) Close()`. -/
def protocolBase.Close (p : protocolBase) : CallResult :=
  if p.terminated = true then CallResult.returned p
  else
    let p := { p with terminated := true }
    let p := { p with closerCloses := p.closerCloses + 1 }
    if p.syncMode = false then p.closeAndJoin
    else CallResult.returned p

/-- The method `(p *protocolBase) SetSyncMode(val)`. -/
def protocolBase.SetSyncMode (p : protocolBase) (val : Bool) : CallResult :=
  if val = p.syncMode then CallResult.returned p
  else
    let p := { p with syncMode := val }
    if val = true then p.closeAndJoin
    else
      let p := { p with sendChan := p.nextChan, nextChan := p.nextChan + 1 }
      CallResult.returned { p with receivers := p.receivers ++ [p.sendChan] }

/-- A call of `Close` or of `SetSyncMode`. -/
inductive Call where
  | Close
  | SetSyncMode (val : Bool)
  deriving DecidableEq, Repr

/-- One call on a `protocolBase`. -/
def protocolBase.call (p : protocolBase) : Call → CallResult
  | Call.Close => p.Close
  | Call.SetSyncMode val => p.SetSyncMode val

/-- A sequence of calls, stopping at the first that panics or blocks. -/
def protocolBase.calls : protocolBase → List Call → CallResult
  | p, [] => CallResult.returned p
  | p, c :: rest =>
    match p.call c with
    | CallResult.returned p1 => protocolBase.calls p1 rest
    | r => r

/-! ## Example environment -/

/-- Decimal reading of a digit string, for the example environment. -/
def readDigits : List Char → Nat → Nat
  | [], acc => acc
  | c :: cs, acc => readDigits cs (acc * 10 + (c.toNat - 48))

/-- An environment with a single regular file of the given content behind every
path, where paths are joined with a slash and numbers are read in decimal. -/
def exampleEnv (content : List Byte) : Env :=
  { atoui64 := fun s => readDigits s.toList 0
    atoi64 := fun s =>
      match s.toList with
      | '-' :: cs => -(readDigits cs 0 : Int)
      | cs => (readDigits cs 0 : Int)
    Join := fun a b => a ++ "/" ++ b
    EvalSymlinks := fun p => Except.ok p
    Stat := fun _ => Except.ok (content.length : Int)
    Open := fun _ => Except.ok { content := content, readFails := false } }

/-- The example environment, except that every shared path is a broken symbolic
link. -/
def brokenLinkEnv : Env :=
  { exampleEnv [] with EvalSymlinks := fun _ => Except.error "no such file or directory" }

/-- An idle connection. -/
def exampleConn : Conn :=
  { Send := [], binaryMode := false, writeCompression := false, wire := [], writesLeft := none }

/-- A world with one shared file `test file.txt` under `/tmp/testshare`, the
given number of free upload slots and the given `PeerDisableCompression`. -/
def exampleWorld (slots : Int) (disableCompression : Bool) : World :=
  { client :=
      { PeerDisableCompression := disableCompression
        uploadSlotAvail := slots
        fileList := []
        shareTree :=
          [{ path := "/tmp/testshare"
             shareDirectory := shareDirectory.mk
               [("test file.txt", { tth := "UJUIOGYVALWRB56PRJEB6ZH3G4OLTELOEQ3UKMY", tthl := [] })]
               [] }]
        transfers := []
        wg := 0 }
    pconns := fun _ => { state := "wait_upload", conn := exampleConn, wakeUp := 0 }
    uploads := fun _ =>
      { state := "", pconn := 0, reader := none, compressed := false, request := "",
        start := 0, length := 0, offset := 0 }
    nextUpload := 0
    goroutines := [] }

/-- The submatches of a `GET` for the example file: start, length and the
compression flag as given. -/
def exampleArgs (start length zl1 : String) : List String :=
  ["", "file TTH/UJUIOGYVALWRB56PRJEB6ZH3G4OLTELOEQ3UKMY", "file",
    "UJUIOGYVALWRB56PRJEB6ZH3G4OLTELOEQ3UKMY", start, length, zl1]

/-- The world right after the example request was served by `newUpload` on a
client with one free slot that allows compression. -/
def acceptedWorld (content : List Byte) (start length zl1 : String) : World :=
  (newUpload (exampleEnv content) (exampleWorld 1 false) 0 (exampleArgs start length zl1)).2

/-- The world reached from `w` by a sequence of scheduling steps (`w` itself
when a step fails). -/
def runFrom (env : Env) (w : World) (acts : List Action) : World :=
  (run env w acts).getD w

/-- A schedule on a client with one slot: a request of peer 0, a request of
peer 1 while the first upload runs, the two phases of the first upload, and a
second request of peer 1. -/
def exampleSchedule : List Action :=
  [Action.request 0 (exampleArgs "0" "-1" ""), Action.request 1 (exampleArgs "0" "-1" ""),
    Action.advance 0, Action.advance 0, Action.request 1 (exampleArgs "0" "-1" "")]

/-! ## Invariants -/

/-- The balance kept by every scheduling step: free slots plus running uploads
is constant, no slot count is negative, and the wait group has grown by the
number of running uploads over its initial value `base`. -/
def slotBalance (total : Nat) (base : Int) (w : World) : Prop :=
  0 ≤ w.client.uploadSlotAvail ∧
    w.client.uploadSlotAvail + (w.goroutines.length : Int) = (total : Int) ∧
    w.client.wg = base + (w.goroutines.length : Int)

/-- The closer has been closed once when the protocol is terminated and never
otherwise. -/
def protocolBase.closerOnce (p : protocolBase) : Prop :=
  p.closerCloses = if p.terminated = true then 1 else 0

/-- Every running upload has a reader. -/
def readersSet (w : World) : Prop :=
  ∀ g ∈ w.goroutines, ∃ rd, (w.uploads g.u).reader = some rd

/-! ## Properties of `newUpload` -/

/-- The closure selecting the source never yields `errorNoSlots`. -/
theorem newUpload.source_ne_errorNoSlots (env : Env) (client : Client) (u : upload)
    (reqLength : Int) (reqTTH : String) :
    newUpload.source env client u reqLength reqTTH ≠ Except.error error.errorNoSlots := by
  unfold newUpload.source
  intro h
  split at h
  · split at h
    · cases h
    · cases h
  · dsimp only at h
    split at h
    · cases h
    · split at h
      · split at h
        · cases h
        · cases h
      · split at h
        · cases h
        · split at h
          · cases h
          · split at h
            · cases h
            · split at h
              · cases h
              · split at h
                · split at h
                  · cases h
                  · cases h
                · cases h

/-- With fewer than seven submatches `newUpload` panics on an index. -/
theorem newUpload_short_args (env : Env) (w : World) (pconn : Nat) (args : List String)
    (h : args.length < 7) :
    newUpload env w pconn args = (Outcome.panic Panic.indexOutOfRange, w) := by
  match args, h with
  | [], _ => rfl
  | [_], _ => rfl
  | [_, _], _ => rfl
  | [_, _, _], _ => rfl
  | [_, _, _, _], _ => rfl
  | [_, _, _, _, _], _ => rfl
  | [_, _, _, _, _, _], _ => rfl
  | _ :: _ :: _ :: _ :: _ :: _ :: _ :: _, h => simp at h; omega

/-- A call that returns an error leaves the world as it was. -/
theorem newUpload_err_world (env : Env) (w : World) (pconn : Nat) (args : List String)
    (e : error) (h : (newUpload env w pconn args).1 = Outcome.err e) :
    (newUpload env w pconn args).2 = w := by
  by_cases hl : args.length < 7
  · rw [newUpload_short_args env w pconn args hl]
  · match args, hl with
    | _ :: a1 :: _ :: a3 :: a4 :: a5 :: a6 :: _, _ =>
      simp only [newUpload] at h ⊢
      split at h
      · simp [*]
      · rename_i hs
        simp only [hs, if_false]
        split at h
        · rename_i e1 he
          simp only [he]
        · cases h
    | [], hl => simp at hl
    | [_], hl => simp at hl
    | [_, _], hl => simp at hl
    | [_, _, _], hl => simp at hl
    | [_, _, _, _], hl => simp at hl
    | [_, _, _, _, _], hl => simp at hl
    | [_, _, _, _, _, _], hl => simp at hl

/-- C1. Slot admission: for a request with its seven submatches, `newUpload`
returns `errorNoSlots` exactly when `uploadSlotAvail` is zero or below, whatever
the subject, start and length of the request are. -/
theorem newUpload_errorNoSlots_iff (env : Env) (w : World) (pconn : Nat) (args : List String)
    (h : 7 ≤ args.length) :
    (newUpload env w pconn args).1 = Outcome.err error.errorNoSlots ↔
      w.client.uploadSlotAvail ≤ 0 := by
  match args, h with
  | _ :: a1 :: _ :: a3 :: a4 :: a5 :: a6 :: _, _ =>
    simp only [newUpload]
    by_cases hs : w.client.uploadSlotAvail ≤ 0
    · simp [hs]
    · simp only [hs, if_false, iff_false]
      split
      · rename_i e he
        intro h2
        simp only [Outcome.err.injEq] at h2
        subst h2
        exact newUpload.source_ne_errorNoSlots _ _ _ _ _ he
      · simp

/-- Witness of C1: with no free slot the example request is refused with
`errorNoSlots`. -/
theorem newUpload_errorNoSlots_iff_witness :
    7 ≤ (exampleArgs "0" "-1" "").length ∧
      ((newUpload (exampleEnv [65, 65, 65]) (exampleWorld 0 false) 0
          (exampleArgs "0" "-1" "")).1 = Outcome.err error.errorNoSlots ↔
        (exampleWorld 0 false).client.uploadSlotAvail ≤ 0) :=
  ⟨by decide, newUpload_errorNoSlots_iff _ _ _ _ (by decide)⟩

/-- The closure selecting the source only sets `reader` and `length`, and it
always sets a reader. -/
theorem newUpload.source_ok_fields (env : Env) (client : Client) (u u1 : upload)
    (reqLength : Int) (reqTTH : String)
    (h : newUpload.source env client u reqLength reqTTH = Except.ok u1) :
    u1.state = u.state ∧ u1.pconn = u.pconn ∧ u1.compressed = u.compressed ∧
      u1.request = u.request ∧ u1.start = u.start ∧ u1.offset = u.offset ∧
      ∃ rd, u1.reader = some rd := by
  unfold newUpload.source at h
  split at h
  · split at h
    · cases h
    · cases h; exact ⟨rfl, rfl, rfl, rfl, rfl, rfl, _, rfl⟩
  · dsimp only at h
    split at h
    · cases h
    · split at h
      · split at h
        · cases h
        · cases h; exact ⟨rfl, rfl, rfl, rfl, rfl, rfl, _, rfl⟩
      · split at h
        · cases h
        · split at h
          · cases h
          · split at h
            · cases h
            · split at h
              · cases h
              · split at h
                · split at h
                  · cases h
                  · cases h; exact ⟨rfl, rfl, rfl, rfl, rfl, rfl, _, rfl⟩
                · cases h; exact ⟨rfl, rfl, rfl, rfl, rfl, rfl, _, rfl⟩

/-- What an accepted call does: with the seven submatches at hand, the source
closure succeeded on the request and the world is updated from its result. -/
theorem newUpload_ok_inv (env : Env) (w : World) (pconn : Nat) (args : List String)
    (h : (newUpload env w pconn args).1 = Outcome.ok) :
    ∃ a0 a1 a2 a3 a4 a5 a6 rest u,
      args = a0 :: a1 :: a2 :: a3 :: a4 :: a5 :: a6 :: rest ∧
      0 < w.client.uploadSlotAvail ∧
      newUpload.source env w.client
        { state := "transfering", pconn := pconn, reader := none,
          compressed := (w.client.PeerDisableCompression == false && a6 != ""),
          request := a1, start := uint64 (env.atoui64 a4), length := 0, offset := 0 }
        (int64 (uint64 (env.atoi64 a5))) a3 = Except.ok u ∧
      (newUpload env w pconn args).2 =
        { client :=
            { w.client with
                transfers := w.client.transfers.insert w.nextUpload
                uploadSlotAvail := w.client.uploadSlotAvail - 1
                wg := w.client.wg + 1 }
          pconns := Function.update w.pconns pconn
            { w.pconns pconn with
                conn := { (w.pconns pconn).conn with
                  Send := (w.pconns pconn).conn.Send ++
                    [{ name := "ADCSND", payload := sndPayload u }] } }
          uploads := Function.update w.uploads w.nextUpload u
          nextUpload := w.nextUpload + 1
          goroutines := w.goroutines ++ [{ u := w.nextUpload, pc := doPC.body }] } := by
  by_cases hl : args.length < 7
  · rw [newUpload_short_args env w pconn args hl] at h
    cases h
  · match args, hl with
    | a0 :: a1 :: a2 :: a3 :: a4 :: a5 :: a6 :: rest, _ =>
      refine ⟨a0, a1, a2, a3, a4, a5, a6, rest, ?_⟩
      simp only [newUpload] at h ⊢
      split at h
      · cases h
      · rename_i hs
        simp only [hs, if_false]
        split at h
        · cases h
        · rename_i u hu
          have hp := (newUpload.source_ok_fields _ _ _ _ _ _ hu).2.1
          simp only at hp
          refine ⟨u, trivial, by omega, hu, ?_⟩
          simp only [hu, hp]
    | [], hl => simp at hl
    | [_], hl => simp at hl
    | [_, _], hl => simp at hl
    | [_, _, _], hl => simp at hl
    | [_, _, _, _], hl => simp at hl
    | [_, _, _, _, _], hl => simp at hl
    | [_, _, _, _, _, _], hl => simp at hl

/-- C6. Every accepted request pushes exactly one message on the connection of
the requesting peer, named `ADCSND`, with payload
`<args[1]> <start> <effective length>`, followed by ` ZL1` exactly when
`PeerDisableCompression` is false and `args[6]` is not empty; the connections of
the other peers are untouched. The effective length is the `length` field of
the upload just created. -/
theorem newUpload_ok_sends_ADCSND (env : Env) (w : World) (pconn : Nat) (args : List String)
    (h : (newUpload env w pconn args).1 = Outcome.ok) :
    ((newUpload env w pconn args).2.pconns pconn).conn.Send =
        (w.pconns pconn).conn.Send ++
          [{ name := "ADCSND"
             payload :=
               args.getD 1 "" ++ " " ++ toString (uint64 (env.atoui64 (args.getD 4 ""))) ++ " " ++
                 toString ((newUpload env w pconn args).2.uploads w.nextUpload).length ++
                 (if w.client.PeerDisableCompression = false ∧ args.getD 6 "" ≠ "" then " ZL1"
                  else "") }] ∧
      ∀ q, q ≠ pconn → (newUpload env w pconn args).2.pconns q = w.pconns q := by
  obtain ⟨a0, a1, a2, a3, a4, a5, a6, rest, u, hargs, _, hu, hw⟩ :=
    newUpload_ok_inv env w pconn args h
  obtain ⟨_, _, hc, hr, hs, _, _⟩ := newUpload.source_ok_fields _ _ _ _ _ _ hu
  simp only at hc hr hs
  rw [hw]
  subst hargs
  constructor
  · simp only [Function.update_same, List.getD_cons_succ, List.getD_cons_zero, sndPayload,
      hc, hr, hs]
    congr 3
    by_cases hd : w.client.PeerDisableCompression = false <;> by_cases h6 : a6 = "" <;>
      simp [hd, h6]
  · intro q hq
    simp only [Function.update_noteq hq]

/-- Witness of C6: the example request with the compression flag, on a client
that allows compression, is answered by one `ADCSND` carrying ` ZL1`. -/
theorem newUpload_ok_sends_ADCSND_witness :
    (newUpload (exampleEnv [65, 65, 65]) (exampleWorld 1 false) 0
        (exampleArgs "0" "-1" " ZL1")).1 = Outcome.ok ∧
      ((newUpload (exampleEnv [65, 65, 65]) (exampleWorld 1 false) 0
        (exampleArgs "0" "-1" " ZL1")).2.pconns 0).conn.Send =
        [{ name := "ADCSND"
           payload := "file TTH/UJUIOGYVALWRB56PRJEB6ZH3G4OLTELOEQ3UKMY 0 3 ZL1" }] :=
  ⟨by decide,
    ((newUpload_ok_sends_ADCSND (exampleEnv [65, 65, 65]) (exampleWorld 1 false) 0
      (exampleArgs "0" "-1" " ZL1") (by decide)).1.trans (by decide))⟩

/-- C8. A refused upload has no effect: whenever `newUpload` returns an error,
`uploadSlotAvail`, the transfers registry, the running goroutines and the
messages pushed on every connection are what they were before the call. -/
theorem newUpload_err_no_effect (env : Env) (w : World) (pconn : Nat) (args : List String)
    (e : error) (h : (newUpload env w pconn args).1 = Outcome.err e) :
    (newUpload env w pconn args).2.client.uploadSlotAvail = w.client.uploadSlotAvail ∧
      (newUpload env w pconn args).2.client.transfers = w.client.transfers ∧
      (newUpload env w pconn args).2.goroutines = w.goroutines ∧
      ∀ q, ((newUpload env w pconn args).2.pconns q).conn.Send = (w.pconns q).conn.Send := by
  rw [newUpload_err_world env w pconn args e h]
  exact ⟨rfl, rfl, rfl, fun _ => rfl⟩

/-- Witness of C8: a request for a file behind a broken symbolic link is
refused with the error of `EvalSymlinks` and changes nothing. -/
theorem newUpload_err_no_effect_witness :
    (newUpload brokenLinkEnv (exampleWorld 1 false) 0 (exampleArgs "0" "-1" "")).1 =
        Outcome.err (error.os "no such file or directory") ∧
      (newUpload brokenLinkEnv (exampleWorld 1 false) 0
        (exampleArgs "0" "-1" "")).2.client.uploadSlotAvail = 1 ∧
      (newUpload brokenLinkEnv (exampleWorld 1 false) 0
        (exampleArgs "0" "-1" "")).2.client.transfers = [] :=
  ⟨by decide,
    (newUpload_err_no_effect brokenLinkEnv (exampleWorld 1 false) 0 (exampleArgs "0" "-1" "")
      (error.os "no such file or directory") (by decide)).1,
    (newUpload_err_no_effect brokenLinkEnv (exampleWorld 1 false) 0 (exampleArgs "0" "-1" "")
      (error.os "no such file or directory") (by decide)).2.1⟩


/-! ## Properties of `upload.do` and of the slot pool -/

/-- The loop of `upload.do` ends within `len(data) + 1` iterations. -/
theorem upload.do.loop_total (fuel : Nat) :
    ∀ (rd : Reader) (conn : Conn) (offset : Nat), rd.data.length < fuel →
      ∃ r, upload.do.loop fuel rd conn offset = some r := by
  induction fuel with
  | zero => intro rd conn offset h; omega
  | succ fuel ih =>
    intro rd conn offset h
    unfold upload.do.loop
    cases hd : rd.data with
    | nil =>
      cases hf : rd.fails <;> simp [Reader.Read, hd, hf]
    | cons b rest =>
      have hlen : (List.drop bufSize (b :: rest)).length < fuel := by
        have : rd.data.length = rest.length + 1 := by rw [hd]; rfl
        have hb : 0 < bufSize := by decide
        simp only [List.length_drop, List.length_cons]
        omega
      simp only [Reader.Read, hd, List.isEmpty_cons, Bool.false_eq_true, if_false]
      rw [if_neg (by simp)]
      have hne : ¬ (List.take bufSize (b :: rest)).length = 0 := by
        have hb : 0 < bufSize := by decide
        simp only [List.length_take, List.length_cons]
        omega
      rw [if_neg hne]
      cases hw : conn.WriteBinary (List.take bufSize (b :: rest)) with
      | mk conn1 e =>
        cases e with
        | some e => exact ⟨_, rfl⟩
        | none => exact ih _ conn1 _ hlen

/-- The streaming closure of `upload.do` never exhausts its bound. -/
theorem upload.do.body_ne_outOfFuel (w : World) (uid : Nat) :
    (match upload.do.body w uid with
      | BodyResult.outOfFuel => False
      | _ => True) := by
  unfold upload.do.body
  dsimp only
  cases hr : (w.uploads uid).reader with
  | none => trivial
  | some rd =>
    dsimp only
    obtain ⟨r, hr⟩ := upload.do.loop_total (rd.data.length + 1) rd
      (((w.pconns (w.uploads uid).pconn).conn.SetBinaryMode true).SetWriteCompression true)
      (w.uploads uid).offset (Nat.lt_succ_self _)
    rw [hr]
    obtain ⟨rd1, conn1, offset1, e⟩ := r
    cases e <;> trivial

/-- The streaming closure of `upload.do` touches neither the client nor the set
of goroutines. -/
theorem upload.do.body_client (w w1 : World) (uid : Nat) (err : Option error)
    (h : upload.do.body w uid = BodyResult.returned w1 err) :
    w1.client = w.client ∧ w1.goroutines = w.goroutines := by
  unfold upload.do.body at h
  dsimp only at h
  split at h
  · cases h
  · split at h
    · cases h
    · cases h; exact ⟨rfl, rfl⟩
    · cases h; exact ⟨rfl, rfl⟩

/-- The final closure of `upload.do` gives back exactly one slot, in every
state of the upload, and the goroutine leaves the wait group. -/
theorem upload.do.final_client (w : World) (uid : Nat) (err : Option error) :
    (upload.do.final w uid err).client.uploadSlotAvail = w.client.uploadSlotAvail + 1 ∧
      (upload.do.final w uid err).client.wg = w.client.wg - 1 ∧
      (upload.do.final w uid err).goroutines = w.goroutines := by
  unfold upload.do.final
  dsimp only
  split
  · exact ⟨rfl, rfl, rfl⟩
  · split <;> exact ⟨rfl, rfl, rfl⟩

/-- Every scheduling step keeps the balance. -/
theorem step_slotBalance (env : Env) (total : Nat) (base : Int) (w w1 : World) (a : Action)
    (hb : slotBalance total base w) (hs : step env w a = some w1) :
    slotBalance total base w1 := by
  obtain ⟨h0, h1, h2⟩ := hb
  cases a with
  | request pconn args =>
    simp only [step] at hs
    cases ho : (newUpload env w pconn args).1 with
    | panic p =>
      rw [show newUpload env w pconn args =
        (Outcome.panic p, (newUpload env w pconn args).2) from by rw [← ho]] at hs
      cases hs
    | err e =>
      have hw := newUpload_err_world env w pconn args e ho
      rw [show newUpload env w pconn args =
        (Outcome.err e, (newUpload env w pconn args).2) from by rw [← ho]] at hs
      simp only [Option.some.injEq] at hs
      rw [← hs, hw]
      exact ⟨h0, h1, h2⟩
    | ok =>
      obtain ⟨_, _, _, _, _, _, _, _, u, _, hpos, _, hw⟩ := newUpload_ok_inv env w pconn args ho
      rw [show newUpload env w pconn args =
        (Outcome.ok, (newUpload env w pconn args).2) from by rw [← ho]] at hs
      simp only [Option.some.injEq] at hs
      rw [← hs, hw]
      refine ⟨?_, ?_, ?_⟩
      · show 0 ≤ w.client.uploadSlotAvail - 1
        omega
      · show w.client.uploadSlotAvail - 1 +
          ((w.goroutines ++ [Goroutine.mk w.nextUpload doPC.body]).length : Int) = total
        simp only [List.length_append, List.length_singleton, Nat.cast_add, Nat.cast_one]
        omega
      · show w.client.wg + 1 =
          base + ((w.goroutines ++ [Goroutine.mk w.nextUpload doPC.body]).length : Int)
        simp only [List.length_append, List.length_singleton, Nat.cast_add, Nat.cast_one]
        omega
  | advance uid =>
    simp only [step] at hs
    split at hs
    · cases hs
    · rename_i g hg
      have hmem : g ∈ w.goroutines := List.mem_of_find?_eq_some hg
      have hpos : 0 < w.goroutines.length := List.length_pos_of_mem hmem
      split at hs
      · split at hs
        · rename_i wb err hbody
          obtain ⟨hc, hgs⟩ := upload.do.body_client w wb uid err hbody
          simp only [Option.some.injEq] at hs
          rw [← hs]
          have hlen :
              (wb.goroutines.erase g ++ [Goroutine.mk uid (doPC.final err)]).length =
                w.goroutines.length := by
            rw [hgs, List.length_append, List.length_erase_of_mem hmem, List.length_singleton]
            omega
          refine ⟨?_, ?_, ?_⟩
          · show 0 ≤ wb.client.uploadSlotAvail
            rw [hc]; exact h0
          · show wb.client.uploadSlotAvail +
              ((wb.goroutines.erase g ++ [Goroutine.mk uid (doPC.final err)]).length : Int) =
                total
            rw [hlen, hc]; exact h1
          · show wb.client.wg =
              base + ((wb.goroutines.erase g ++ [Goroutine.mk uid (doPC.final err)]).length : Int)
            rw [hlen, hc]; exact h2
        · cases hs
        · cases hs
      · rename_i err _
        obtain ⟨hf1, hf2, hf3⟩ := upload.do.final_client w uid err
        simp only [Option.some.injEq] at hs
        rw [← hs]
        have hlen : ((upload.do.final w uid err).goroutines.erase g).length + 1 =
            w.goroutines.length := by
          rw [hf3, List.length_erase_of_mem hmem]
          omega
        refine ⟨?_, ?_, ?_⟩
        · show 0 ≤ (upload.do.final w uid err).client.uploadSlotAvail
          rw [hf1]; omega
        · show (upload.do.final w uid err).client.uploadSlotAvail +
            (((upload.do.final w uid err).goroutines.erase g).length : Int) = total
          rw [hf1]; omega
        · show (upload.do.final w uid err).client.wg =
            base + (((upload.do.final w uid err).goroutines.erase g).length : Int)
          rw [hf2]; omega

/-- Every sequence of scheduling steps keeps the balance. -/
theorem run_slotBalance (env : Env) (total : Nat) (base : Int) (acts : List Action) :
    ∀ (w w1 : World), slotBalance total base w → run env w acts = some w1 →
      slotBalance total base w1 := by
  induction acts with
  | nil =>
    intro w w1 hb hr
    simp only [run, Option.some.injEq] at hr
    rw [← hr]; exact hb
  | cons a rest ih =>
    intro w w1 hb hr
    simp only [run] at hr
    split at hr
    · cases hr
    · rename_i w2 hs
      exact ih w2 w1 (step_slotBalance env total base w w2 a hb hs) hr

/-- C2. Slot pool invariant: in every state reached from an initial state
(all `total` slots free, no transfer registered, no upload running) by any
sequence of `newUpload` calls and phases of `upload.do`, the free slot count
lies between `0` and `total`, and free slots plus uploads still running (the
`do` goroutines whose final closure has not run, which the wait group counts
too) equal `total`: each accepted request takes one slot and each final closure
gives one back. -/
theorem slot_pool_invariant (env : Env) (total : Nat) (w0 w : World) (acts : List Action)
    (h0 : w0.initial total) (hr : run env w0 acts = some w) :
    0 ≤ w.client.uploadSlotAvail ∧ w.client.uploadSlotAvail ≤ (total : Int) ∧
      w.client.uploadSlotAvail + (w.goroutines.length : Int) = (total : Int) ∧
      w.client.wg = w0.client.wg + (w.goroutines.length : Int) := by
  obtain ⟨ha, _, hg⟩ := h0
  have hb : slotBalance total w0.client.wg w0 := by
    refine ⟨?_, ?_, ?_⟩
    · rw [ha]; exact Int.natCast_nonneg total
    · rw [ha, hg]; simp
    · rw [hg]; simp
  obtain ⟨h1, h2, h3⟩ := run_slotBalance env total w0.client.wg acts w0 w hb hr
  exact ⟨h1, by omega, h2, h3⟩

/-- Witness of C2: with one slot, a request is accepted, a second one is refused
while the first upload runs, the upload streams and finishes, and a third
request is accepted again. The run is defined, ends with one running upload,
and satisfies the invariant. -/
theorem slot_pool_invariant_witness :
    (exampleWorld 1 false).initial 1 ∧
      run (exampleEnv [65, 66, 67]) (exampleWorld 1 false) exampleSchedule =
        some (runFrom (exampleEnv [65, 66, 67]) (exampleWorld 1 false) exampleSchedule) ∧
      (runFrom (exampleEnv [65, 66, 67]) (exampleWorld 1 false)
        exampleSchedule).goroutines.length = 1 ∧
      (0 ≤ (runFrom (exampleEnv [65, 66, 67]) (exampleWorld 1 false)
          exampleSchedule).client.uploadSlotAvail ∧
        (runFrom (exampleEnv [65, 66, 67]) (exampleWorld 1 false)
          exampleSchedule).client.uploadSlotAvail ≤ ((1 : Nat) : Int) ∧
        (runFrom (exampleEnv [65, 66, 67]) (exampleWorld 1 false)
          exampleSchedule).client.uploadSlotAvail +
          ((runFrom (exampleEnv [65, 66, 67]) (exampleWorld 1 false)
            exampleSchedule).goroutines.length : Int) = ((1 : Nat) : Int) ∧
        (runFrom (exampleEnv [65, 66, 67]) (exampleWorld 1 false) exampleSchedule).client.wg =
          (exampleWorld 1 false).client.wg +
            ((runFrom (exampleEnv [65, 66, 67]) (exampleWorld 1 false)
              exampleSchedule).goroutines.length : Int)) :=
  ⟨⟨rfl, rfl, rfl⟩, rfl, by decide,
    slot_pool_invariant (exampleEnv [65, 66, 67]) 1 (exampleWorld 1 false)
      (runFrom (exampleEnv [65, 66, 67]) (exampleWorld 1 false) exampleSchedule)
      exampleSchedule ⟨rfl, rfl, rfl⟩ rfl⟩

/-! ## Every accepted upload can run to its end -/

/-- The streaming closure of `upload.do` returns when the upload has a reader,
and the upload keeps a reader. -/
theorem upload.do.body_returns (w : World) (uid : Nat) (rd : Reader)
    (hrd : (w.uploads uid).reader = some rd) :
    ∃ w1 err, upload.do.body w uid = BodyResult.returned w1 err ∧
      (∃ rd1, (w1.uploads uid).reader = some rd1) ∧
      ∀ v, v ≠ uid → w1.uploads v = w.uploads v := by
  obtain ⟨r, hr⟩ := upload.do.loop_total (rd.data.length + 1) rd
    (((w.pconns (w.uploads uid).pconn).conn.SetBinaryMode true).SetWriteCompression true)
    (w.uploads uid).offset (Nat.lt_succ_self _)
  obtain ⟨rd1, conn1, offset1, e⟩ := r
  unfold upload.do.body
  simp only [hrd, hr]
  cases e with
  | some e =>
    refine ⟨_, _, rfl, ⟨rd1, ?_⟩, ?_⟩
    · simp only [Function.update_same]
    · intro v hv
      simp only [Function.update_noteq hv]
  | none =>
    refine ⟨_, _, rfl, ⟨rd1, ?_⟩, ?_⟩
    · simp only [Function.update_same]
    · intro v hv
      simp only [Function.update_noteq hv]

/-- The final closure of `upload.do` leaves a reader where there was one. -/
theorem upload.do.final_readers (w : World) (uid : Nat) (err : Option error) (v : Nat)
    (h : ∃ rd, (w.uploads v).reader = some rd) :
    ∃ rd, ((upload.do.final w uid err).uploads v).reader = some rd := by
  have key : ∀ w1 : World, w1.uploads = w.uploads →
      ∃ rd, ((Function.update w1.uploads uid
        (match (w.uploads uid).reader with
          | some rd => { w.uploads uid with reader := some rd.Close }
          | none => w.uploads uid)) v).reader = some rd := by
    intro w1 hw1
    by_cases hv : v = uid
    · subst hv
      obtain ⟨rd, hrd⟩ := h
      simp only [Function.update_same, hrd]
      exact ⟨_, rfl⟩
    · rw [Function.update_noteq hv, hw1]
      exact h
  unfold upload.do.final
  dsimp only
  split
  · exact key w rfl
  · split
    · exact key _ rfl
    · exact key _ rfl

/-- Every scheduling step keeps a reader on every running upload. -/
theorem step_readersSet (env : Env) (w w1 : World) (a : Action)
    (hb : readersSet w) (hs : step env w a = some w1) : readersSet w1 := by
  cases a with
  | request pconn args =>
    simp only [step] at hs
    cases ho : (newUpload env w pconn args).1 with
    | panic p =>
      rw [show newUpload env w pconn args =
        (Outcome.panic p, (newUpload env w pconn args).2) from by rw [← ho]] at hs
      cases hs
    | err e =>
      have hw := newUpload_err_world env w pconn args e ho
      rw [show newUpload env w pconn args =
        (Outcome.err e, (newUpload env w pconn args).2) from by rw [← ho]] at hs
      simp only [Option.some.injEq] at hs
      rw [← hs, hw]
      exact hb
    | ok =>
      obtain ⟨_, _, _, _, _, _, _, _, u, _, _, hu, hw⟩ := newUpload_ok_inv env w pconn args ho
      obtain ⟨_, _, _, _, _, _, rd, hrd⟩ := newUpload.source_ok_fields _ _ _ _ _ _ hu
      rw [show newUpload env w pconn args =
        (Outcome.ok, (newUpload env w pconn args).2) from by rw [← ho]] at hs
      simp only [Option.some.injEq] at hs
      rw [← hs, hw]
      intro g hg
      show ∃ rd, (Function.update w.uploads w.nextUpload u g.u).reader = some rd
      by_cases hv : g.u = w.nextUpload
      · rw [hv, Function.update_same]
        exact ⟨rd, hrd⟩
      · rw [Function.update_noteq hv]
        have hg1 : g ∈ w.goroutines ++ [Goroutine.mk w.nextUpload doPC.body] := hg
        rw [List.mem_append, List.mem_singleton] at hg1
        cases hg1 with
        | inl hm => exact hb g hm
        | inr he => rw [he] at hv; exact absurd rfl hv
  | advance uid =>
    simp only [step] at hs
    split at hs
    · cases hs
    · rename_i g0 hg0
      have hmem : g0 ∈ w.goroutines := List.mem_of_find?_eq_some hg0
      have hu0 : g0.u = uid := by
        have := List.find?_some hg0
        simpa using this
      split at hs
      · split at hs
        · rename_i wb err hbody
          obtain ⟨_, hgs⟩ := upload.do.body_client w wb uid err hbody
          obtain ⟨rd, hrd⟩ := hb g0 hmem
          rw [hu0] at hrd
          obtain ⟨w2, err2, hb2, hr2, hoth⟩ := upload.do.body_returns w uid rd hrd
          rw [hbody] at hb2
          simp only [BodyResult.returned.injEq] at hb2
          obtain ⟨hw2, _⟩ := hb2
          subst hw2
          simp only [Option.some.injEq] at hs
          rw [← hs]
          intro g hg
          have hg1 : g ∈ wb.goroutines.erase g0 ++ [Goroutine.mk uid (doPC.final err)] := hg
          show ∃ rd, (wb.uploads g.u).reader = some rd
          by_cases hv : g.u = uid
          · rw [hv]; exact hr2
          · rw [hoth _ hv]
            rw [List.mem_append, List.mem_singleton] at hg1
            cases hg1 with
            | inl hm => rw [hgs] at hm; exact hb g (List.mem_of_mem_erase hm)
            | inr he => rw [he] at hv; exact absurd rfl hv
        · cases hs
        · cases hs
      · rename_i err _
        simp only [Option.some.injEq] at hs
        rw [← hs]
        intro g hg
        have hg1 : g ∈ (upload.do.final w uid err).goroutines.erase g0 := hg
        rw [(upload.do.final_client w uid err).2.2] at hg1
        exact upload.do.final_readers w uid err g.u (hb g (List.mem_of_mem_erase hg1))

/-- Every sequence of scheduling steps keeps a reader on every running
upload. -/
theorem run_readersSet (env : Env) (acts : List Action) :
    ∀ (w w1 : World), readersSet w → run env w acts = some w1 → readersSet w1 := by
  induction acts with
  | nil =>
    intro w w1 hb hr
    simp only [run, Option.some.injEq] at hr
    rw [← hr]; exact hb
  | cons a rest ih =>
    intro w w1 hb hr
    simp only [run] at hr
    split at hr
    · cases hr
    · rename_i w2 hs
      exact ih w2 w1 (step_readersSet env w w2 a hb hs) hr

/-- In every state reached from a state without running uploads, each running
upload can take its next step: its streaming closure returns (with or without
error) and its final closure runs, so every slot taken is given back. -/
theorem running_upload_can_advance (env : Env) (w0 w : World) (acts : List Action)
    (h0 : w0.goroutines = []) (hr : run env w0 acts = some w) :
    ∀ g ∈ w.goroutines, ∃ w1, step env w (Action.advance g.u) = some w1 := by
  have hrs : readersSet w := by
    apply run_readersSet env acts w0 w _ hr
    intro g hg
    rw [h0] at hg
    cases hg
  intro g hg
  simp only [step]
  cases hf : w.goroutines.find? (fun g1 => g1.u = g.u) with
  | none =>
    have := List.find?_eq_none.mp hf g hg
    simp at this
  | some g0 =>
    have hmem : g0 ∈ w.goroutines := List.mem_of_find?_eq_some hf
    have hu0 : g0.u = g.u := by
      have := List.find?_some hf
      simpa using this
    dsimp only
    cases hpc : g0.pc with
    | body =>
      obtain ⟨rd, hrd⟩ := hrs g0 hmem
      rw [hu0] at hrd
      obtain ⟨w2, err2, hb2, _, _⟩ := upload.do.body_returns w g.u rd hrd
      simp only [hb2]
      exact ⟨_, rfl⟩
    | final err => exact ⟨_, rfl⟩

/-! ## What the streaming loop writes -/

/-- Two wrapped additions are one wrapped addition. -/
theorem addU64_addU64 (a b c : Nat) : addU64 (addU64 a b) c = addU64 a (b + c) := by
  unfold addU64
  rw [Nat.mod_add_mod, Nat.add_assoc]

/-- A write on the connection leaves the switches and the `Send` queue alone and
logs the chunk with the write-compression switch, unless it fails. -/
theorem Conn.WriteBinary_spec (c c1 : Conn) (chunk : List Byte) (e : Option error)
    (h : c.WriteBinary chunk = (c1, e)) :
    c1.writeCompression = c.writeCompression ∧ c1.binaryMode = c.binaryMode ∧
      c1.Send = c.Send ∧
      (e = none → c1.wire = c.wire ++ [(c.writeCompression, chunk)]) ∧
      (e ≠ none → c1.wire = c.wire) := by
  unfold Conn.WriteBinary at h
  split at h <;> cases h <;> simp

/-- The loop of `upload.do` writes chunks of the stream in order, each under
the write-compression switch the connection had when the loop started; when the
loop ends without error the chunks make up the whole stream up to its end and
`offset` has advanced by its length (modulo `2^64`). -/
theorem upload.do.loop_spec (fuel : Nat) :
    ∀ (rd : Reader) (conn : Conn) (offset : Nat) (rd1 : Reader) (conn1 : Conn) (offset1 : Nat)
      (e : Option error),
      offset < 2 ^ 64 →
      upload.do.loop fuel rd conn offset = some (rd1, conn1, offset1, e) →
      ∃ chunks : List (List Byte),
        conn1.wire = conn.wire ++ chunks.map (fun c => (conn.writeCompression, c)) ∧
          conn1.writeCompression = conn.writeCompression ∧
          conn1.binaryMode = conn.binaryMode ∧ conn1.Send = conn.Send ∧
          (e = none → chunks.flatten = rd.data ∧ offset1 = addU64 offset rd.data.length) := by
  induction fuel with
  | zero =>
    intro rd conn offset rd1 conn1 offset1 e _ h
    simp [upload.do.loop] at h
  | succ fuel ih =>
    intro rd conn offset rd1 conn1 offset1 e hoff h
    unfold upload.do.loop at h
    cases hd : rd.data with
    | nil =>
      simp only [Reader.Read, hd, List.isEmpty_nil, if_true] at h
      cases hf : rd.fails
      · simp only [hf, Bool.false_eq_true, if_false] at h
        rw [if_neg (by simp)] at h
        simp only [List.length_nil, if_true, Option.some.injEq, Prod.mk.injEq] at h
        obtain ⟨_, h2, h3, h4⟩ := h
        subst h2 h3 h4
        refine ⟨[], by simp, rfl, rfl, rfl, ?_⟩
        intro _
        refine ⟨rfl, ?_⟩
        simp only [addU64, List.length_nil, Nat.add_zero]
        exact (Nat.mod_eq_of_lt hoff).symm
      · simp only [hf, if_true, Option.some.injEq, Prod.mk.injEq] at h
        obtain ⟨_, h2, _, h4⟩ := h
        subst h2
        refine ⟨[], by simp, rfl, rfl, rfl, ?_⟩
        intro he
        rw [← h4] at he
        cases he
    | cons b rest =>
      simp only [Reader.Read, hd, List.isEmpty_cons, Bool.false_eq_true, if_false] at h
      rw [if_neg (by simp)] at h
      have hne : ¬ (List.take bufSize (b :: rest)).length = 0 := by
        have hb : 0 < bufSize := by decide
        simp only [List.length_take, List.length_cons]
        omega
      rw [if_neg hne] at h
      cases hw : conn.WriteBinary (List.take bufSize (b :: rest)) with
      | mk conn2 e2 =>
        obtain ⟨hw1, hw2, hw3, hw4, hw5⟩ := Conn.WriteBinary_spec _ _ _ _ hw
        rw [hw] at h
        cases e2 with
        | some e2 =>
          simp only [Option.some.injEq, Prod.mk.injEq] at h
          obtain ⟨_, h2, _, h4⟩ := h
          subst h2
          refine ⟨[], ?_, hw1, hw2, hw3, ?_⟩
          · simp [hw5]
          · intro he
            rw [← h4] at he
            cases he
        | none =>
          dsimp only at h
          obtain ⟨chunks, hc1, hc2, hc3, hc4, hc5⟩ :=
            ih _ _ _ _ _ _ _ (Nat.mod_lt _ (by decide)) h
          refine ⟨List.take bufSize (b :: rest) :: chunks, ?_, ?_, ?_, ?_, ?_⟩
          · rw [hc1, hw4 rfl, hw1]
            simp
          · rw [hc2, hw1]
          · rw [hc3, hw2]
          · rw [hc4, hw3]
          · intro he
            obtain ⟨hf1, hf2⟩ := hc5 he
            dsimp only at hf1 hf2
            refine ⟨?_, ?_⟩
            · rw [List.flatten_cons, hf1, List.take_append_drop]
            · rw [hf2]
              show addU64 (addU64 offset (List.take bufSize (b :: rest)).length) _ = _
              rw [addU64_addU64, ← List.length_append, List.take_append_drop]

/-- When the streaming closure of `upload.do` succeeds, it has written the
whole stream of the reader up to its end, whatever `u.length` is, every chunk
under write compression, whatever `u.compressed` is; the upload is in state
`success` and `offset` has advanced by the length of the stream. -/
theorem upload.do.body_streams_to_EOF (w w1 : World) (uid : Nat) (rd : Reader)
    (hrd : (w.uploads uid).reader = some rd) (hoff : (w.uploads uid).offset < 2 ^ 64)
    (h : upload.do.body w uid = BodyResult.returned w1 none) :
    ∃ chunks : List (List Byte),
      (w1.pconns (w.uploads uid).pconn).conn.wire =
          (w.pconns (w.uploads uid).pconn).conn.wire ++ chunks.map (fun c => (true, c)) ∧
        chunks.flatten = rd.data ∧
        (w1.uploads uid).state = "success" ∧
        (w1.uploads uid).offset = addU64 (w.uploads uid).offset rd.data.length ∧
        (w1.uploads uid).length = (w.uploads uid).length := by
  unfold upload.do.body at h
  simp only [hrd] at h
  split at h
  · cases h
  · cases h
  · rename_i rd1 conn1 offset1 hl
    simp only [BodyResult.returned.injEq] at h
    obtain ⟨hw, _⟩ := h
    obtain ⟨chunks, hc1, _, _, _, hc5⟩ := upload.do.loop_spec _ _ _ _ _ _ _ _ hoff hl
    obtain ⟨hf1, hf2⟩ := hc5 rfl
    refine ⟨chunks, ?_, hf1, ?_, ?_, ?_⟩
    · rw [← hw]
      simp only [Function.update_same, Conn.SetBinaryMode, Conn.SetWriteCompression, hc1]
    · rw [← hw]
      simp only [Function.update_same]
    · rw [← hw]
      simp only [Function.update_same, hf2]
    · rw [← hw]
      simp only [Function.update_same]

/-! ## Ranges that lie inside the file -/

/-- Conversion to `int64` keeps a `uint64` value below `2^63`. -/
theorem int64_of_lt (x : Nat) (h : x < 2 ^ 63) : int64 x = Int.ofNat x := by
  unfold int64
  have h1 : x % 2 ^ 64 = x := Nat.mod_eq_of_lt (by omega)
  rw [h1, if_neg (by omega)]

/-- Conversion to `uint64` keeps a natural number below `2^64`. -/
theorem uint64_of_lt (x : Nat) (h : x < 2 ^ 64) : uint64 (x : Int) = x := by
  unfold uint64
  have h1 : ((x : Int) % 2 ^ 64) = (x : Int) := Int.emod_eq_of_lt (by omega) (by omega)
  rw [h1]
  rfl

/-- Wrapped subtraction is subtraction when nothing is borrowed. -/
theorem subU64_of_le (a b : Nat) (hab : b ≤ a) (ha : a < 2 ^ 64) : subU64 a b = a - b := by
  unfold subU64
  have hb : b % 2 ^ 64 = b := Nat.mod_eq_of_lt (by omega)
  have ha1 : a % 2 ^ 64 = a := Nat.mod_eq_of_lt ha
  rw [hb, ha1, if_pos hab]

/-- The source closure on a file request whose file is found, resolved, sized
and opened, with a start offset below `2^63`: the result is decided by the
comparison of the requested length with `uint64(size) - start`. -/
theorem newUpload.source_file (env : Env) (client : Client) (u : upload) (reqLength : Int)
    (reqTTH p : String) (size : Int) (f : osFile)
    (h1 : u.request ≠ "file files.xml.bz2")
    (h2 : (findByTTH env reqTTH client.shareTree).1 ≠ "")
    (h3 : "tthl TTH".toList.isPrefixOf u.request.toList = false)
    (hE : env.EvalSymlinks (findByTTH env reqTTH client.shareTree).1 = Except.ok p)
    (hS : env.Stat p = Except.ok size) (hO : env.Open p = Except.ok f)
    (hs : u.start < 2 ^ 63) :
    newUpload.source env client u reqLength reqTTH =
      if reqLength ≠ -1 then
        if uint64 reqLength > subU64 (uint64 size) u.start then
          Except.error (error.Errorf "length too big")
        else
          Except.ok
            { u with length := uint64 reqLength
                     reader := some
                       { data := f.content.drop u.start, fails := f.readFails, closed := false } }
      else
        Except.ok
          { u with length := subU64 (uint64 size) u.start
                   reader := some
                     { data := f.content.drop u.start, fails := f.readFails, closed := false } } := by
  unfold newUpload.source
  rw [if_neg h1]
  dsimp only
  rw [if_neg h2, h3]
  simp only [Bool.false_eq_true, if_false, hE, hS, hO, int64_of_lt u.start hs, osFile.Seek]

/-- Length `-1` with a start offset inside the file: the effective length is
`size - start`, and the reader holds exactly that many bytes when the file
content has the size that `Stat` reported. -/
theorem newUpload.source_full_length (env : Env) (client : Client) (u : upload)
    (reqTTH p : String) (size : Nat) (f : osFile)
    (h1 : u.request ≠ "file files.xml.bz2")
    (h2 : (findByTTH env reqTTH client.shareTree).1 ≠ "")
    (h3 : "tthl TTH".toList.isPrefixOf u.request.toList = false)
    (hE : env.EvalSymlinks (findByTTH env reqTTH client.shareTree).1 = Except.ok p)
    (hS : env.Stat p = Except.ok (size : Int)) (hO : env.Open p = Except.ok f)
    (hsize : size < 2 ^ 63) (hle : u.start ≤ size) :
    newUpload.source env client u (-1) reqTTH =
      Except.ok
        { u with length := size - u.start
                 reader := some
                   { data := f.content.drop u.start, fails := f.readFails, closed := false } } := by
  rw [newUpload.source_file env client u (-1) reqTTH p size f h1 h2 h3 hE hS hO (by omega)]
  rw [if_neg (by simp), uint64_of_lt size (by omega), subU64_of_le size u.start hle (by omega)]

/-- An explicit length `l` with a start offset inside the file: the request is
rejected with `length too big` exactly when `start + l` exceeds the size, and
accepted with effective length `l` otherwise. -/
theorem newUpload.source_explicit_length (env : Env) (client : Client) (u : upload)
    (reqTTH p : String) (size l : Nat) (f : osFile)
    (h1 : u.request ≠ "file files.xml.bz2")
    (h2 : (findByTTH env reqTTH client.shareTree).1 ≠ "")
    (h3 : "tthl TTH".toList.isPrefixOf u.request.toList = false)
    (hE : env.EvalSymlinks (findByTTH env reqTTH client.shareTree).1 = Except.ok p)
    (hS : env.Stat p = Except.ok (size : Int)) (hO : env.Open p = Except.ok f)
    (hsize : size < 2 ^ 63) (hl : l < 2 ^ 63) (hle : u.start ≤ size) :
    (newUpload.source env client u (l : Int) reqTTH =
        Except.error (error.Errorf "length too big") ↔ size < u.start + l) ∧
      (u.start + l ≤ size →
        newUpload.source env client u (l : Int) reqTTH =
          Except.ok
            { u with length := l
                     reader := some
                       { data := f.content.drop u.start, fails := f.readFails,
                         closed := false } }) := by
  rw [newUpload.source_file env client u (l : Int) reqTTH p size f h1 h2 h3 hE hS hO (by omega)]
  have hne : (l : Int) ≠ -1 := by omega
  rw [if_pos hne, uint64_of_lt size (by omega), uint64_of_lt l (by omega),
    subU64_of_le size u.start hle (by omega)]
  constructor
  · constructor
    · intro h
      by_cases hc : l > size - u.start
      · omega
      · rw [if_neg hc] at h
        cases h
    · intro h
      rw [if_pos (by omega)]
  · intro h
    rw [if_neg (by omega)]

/-! ## A full request on the example share -/

/-- With a reader that does not fail and a connection that does not break, the
loop of `upload.do` ends without error. -/
theorem upload.do.loop_no_error (fuel : Nat) :
    ∀ (rd : Reader) (conn : Conn) (offset : Nat) (rd1 : Reader) (conn1 : Conn) (offset1 : Nat)
      (e : Option error),
      rd.fails = false → conn.writesLeft = none →
      upload.do.loop fuel rd conn offset = some (rd1, conn1, offset1, e) → e = none := by
  induction fuel with
  | zero =>
    intro rd conn offset rd1 conn1 offset1 e _ _ h
    simp [upload.do.loop] at h
  | succ fuel ih =>
    intro rd conn offset rd1 conn1 offset1 e hf hwl h
    unfold upload.do.loop at h
    cases hd : rd.data with
    | nil =>
      simp only [Reader.Read, hd, List.isEmpty_nil, if_true, hf, Bool.false_eq_true,
        if_false] at h
      rw [if_neg (by simp)] at h
      simp only [List.length_nil, if_true, Option.some.injEq, Prod.mk.injEq] at h
      exact h.2.2.2.symm
    | cons b rest =>
      simp only [Reader.Read, hd, List.isEmpty_cons, Bool.false_eq_true, if_false] at h
      rw [if_neg (by simp)] at h
      have hne : ¬ (List.take bufSize (b :: rest)).length = 0 := by
        have hb : 0 < bufSize := by decide
        simp only [List.length_take, List.length_cons]
        omega
      rw [if_neg hne] at h
      simp only [Conn.WriteBinary, hwl] at h
      refine ih _ _ _ _ _ _ _ ?_ ?_ h
      · exact hf
      · rfl


/-- With a reader that does not fail and a connection that does not break, the
streaming closure of `upload.do` returns without error. -/
theorem upload.do.body_succeeds (w : World) (uid : Nat) (rd : Reader)
    (hrd : (w.uploads uid).reader = some rd) (hf : rd.fails = false)
    (hwl : (w.pconns (w.uploads uid).pconn).conn.writesLeft = none) :
    ∃ w1, upload.do.body w uid = BodyResult.returned w1 none := by
  obtain ⟨r, hr⟩ := upload.do.loop_total (rd.data.length + 1) rd
    (((w.pconns (w.uploads uid).pconn).conn.SetBinaryMode true).SetWriteCompression true)
    (w.uploads uid).offset (Nat.lt_succ_self _)
  obtain ⟨rd1, conn1, offset1, e⟩ := r
  have he : e = none := upload.do.loop_no_error _ _ _ _ _ _ _ _ hf (by exact hwl) hr
  subst he
  unfold upload.do.body
  simp only [hrd, hr]
  exact ⟨_, rfl⟩

/-- A request for the rest of a file from `start` on (what `newUpload` sets up
for length `-1`, see `newUpload.source_full_length`): when neither the file nor
the connection fails, the streaming closure of `upload.do` writes exactly the
bytes of the file from `start` to its end and the upload reaches state
`success` with `offset = length`. -/
theorem upload.do.body_full_range (w : World) (uid : Nat) (rd : Reader) (content : List Byte)
    (start : Nat) (hrd : (w.uploads uid).reader = some rd) (hf : rd.fails = false)
    (hdata : rd.data = content.drop start)
    (hlen : (w.uploads uid).length = content.length - start)
    (hoff : (w.uploads uid).offset = 0) (hsize : content.length < 2 ^ 64)
    (hwl : (w.pconns (w.uploads uid).pconn).conn.writesLeft = none) :
    ∃ (w1 : World) (chunks : List (List Byte)),
      upload.do.body w uid = BodyResult.returned w1 none ∧
        (w1.pconns (w.uploads uid).pconn).conn.wire =
          (w.pconns (w.uploads uid).pconn).conn.wire ++ chunks.map (fun c => (true, c)) ∧
        chunks.flatten = content.drop start ∧
        (w1.uploads uid).state = "success" ∧
        (w1.uploads uid).offset = (w1.uploads uid).length := by
  obtain ⟨w1, hb⟩ := upload.do.body_succeeds w uid rd hrd hf hwl
  obtain ⟨chunks, h1, h2, h3, h4, h5⟩ :=
    upload.do.body_streams_to_EOF w w1 uid rd hrd (by rw [hoff]; decide) hb
  refine ⟨w1, chunks, hb, h1, by rw [h2, hdata], h3, ?_⟩
  rw [h4, h5, hlen, hoff, hdata, List.length_drop]
  unfold addU64
  rw [Nat.zero_add]
  exact Nat.mod_eq_of_lt (by omega)

/-! ## Range handling of file requests -/

/-- C4 (behaviour at a start offset past the end of the file). A request with
length `-1` and start `10` for a file of four bytes is accepted; the length
stored and announced is `4 - 10` wrapped to `uint64`, not a number of bytes
between `0` and the file size. -/
theorem newUpload_full_length_past_end :
    (newUpload (exampleEnv [65, 66, 67, 68]) (exampleWorld 1 false) 0
        (exampleArgs "10" "-1" "")).1 = Outcome.ok ∧
      ((acceptedWorld [65, 66, 67, 68] "10" "-1" "").uploads 0).length =
        18446744073709551610 ∧
      ((acceptedWorld [65, 66, 67, 68] "10" "-1" "").pconns 0).conn.Send =
        [{ name := "ADCSND"
           payload :=
             "file TTH/UJUIOGYVALWRB56PRJEB6ZH3G4OLTELOEQ3UKMY 10 18446744073709551610" }] := by
  decide

/-- C5 (behaviour at a start offset past the end of the file). A request with
start `10` and length `5` for a file of four bytes reaches past the end of the
file, yet it is accepted with effective length `5`. -/
theorem newUpload_explicit_length_past_end :
    (newUpload (exampleEnv [65, 66, 67, 68]) (exampleWorld 1 false) 0
        (exampleArgs "10" "5" "")).1 = Outcome.ok ∧
      ((acceptedWorld [65, 66, 67, 68] "10" "5" "").uploads 0).length = 5 ∧
      ((acceptedWorld [65, 66, 67, 68] "10" "5" "").pconns 0).conn.Send =
        [{ name := "ADCSND"
           payload := "file TTH/UJUIOGYVALWRB56PRJEB6ZH3G4OLTELOEQ3UKMY 10 5" }] := by
  decide

/-! ## Payload of `upload.do` -/

/-- C3 (behaviour for an explicit length shorter than the rest of the file).
For a file `ABCD` and a request with start `0` and length `2`, `newUpload`
announces two bytes, and `upload.do` then writes all four bytes and ends in
state `success` with `offset = 4` and `length = 2`. -/
theorem do_streams_past_announced_length :
    ((acceptedWorld [65, 66, 67, 68] "0" "2" "").pconns 0).conn.Send =
        [{ name := "ADCSND"
           payload := "file TTH/UJUIOGYVALWRB56PRJEB6ZH3G4OLTELOEQ3UKMY 0 2" }] ∧
      (upload.do (acceptedWorld [65, 66, 67, 68] "0" "2" "") 0).map
          (fun w => ((w.pconns 0).conn.wire.map Prod.snd).flatten) = some [65, 66, 67, 68] ∧
      (upload.do (acceptedWorld [65, 66, 67, 68] "0" "2" "") 0).map
          (fun w => ((w.uploads 0).state, (w.uploads 0).offset, (w.uploads 0).length)) =
        some ("success", 4, 2) := by
  decide

/-- C7 (behaviour for an upload announced without `ZL1`). The example request
without the compression flag is answered by an `ADCSND` without ` ZL1` and its
upload has `compressed = false`, yet `upload.do` writes the payload with write
compression switched on. -/
theorem do_compresses_unannounced :
    ((acceptedWorld [65, 66, 67, 68] "0" "-1" "").uploads 0).compressed = false ∧
      ((acceptedWorld [65, 66, 67, 68] "0" "-1" "").pconns 0).conn.Send =
        [{ name := "ADCSND"
           payload := "file TTH/UJUIOGYVALWRB56PRJEB6ZH3G4OLTELOEQ3UKMY 0 4" }] ∧
      (upload.do (acceptedWorld [65, 66, 67, 68] "0" "-1" "") 0).map
          (fun w => (w.pconns 0).conn.wire) = some [(true, [65, 66, 67, 68])] := by
  decide

/-! ## `upload.terminate` -/

/-- C9 (behaviour in the in-flight state). An upload just created by
`newUpload` is in state `transfering`, and `terminate()` on it panics; the
upload stays registered and in state `transfering`. -/
theorem terminate_in_flight_panics :
    ((acceptedWorld [65] "0" "-1" "").uploads 0).state = "transfering" ∧
      (upload.terminate (acceptedWorld [65] "0" "-1" "") 0).1 =
        Outcome.panic (Panic.terminateUnsupported "transfering") ∧
      (upload.terminate (acceptedWorld [65] "0" "-1" "") 0).2.client.transfers = [0] ∧
      ((upload.terminate (acceptedWorld [65] "0" "-1" "") 0).2.uploads 0).state =
        "transfering" := by
  decide

/-- The method `terminate()` panics in every state but `terminated`. -/
theorem terminate_not_terminated (w : World) (uid : Nat)
    (h : (w.uploads uid).state ≠ "terminated") :
    upload.terminate w uid =
      (Outcome.panic (Panic.terminateUnsupported (w.uploads uid).state), w) := by
  simp [upload.terminate, upload.terminate.switch, h]

/-- The method `terminate()` on a terminated upload returns and changes
nothing. -/
theorem terminate_terminated (w : World) (uid : Nat)
    (h : (w.uploads uid).state = "terminated") :
    upload.terminate w uid = (Outcome.ok, w) := by
  simp [upload.terminate, upload.terminate.switch, h]

/-! ## Send channel of `protocolBase` -/

/-- C10 (behaviour of `Close()` followed by `SetSyncMode(true)`). On a fresh
`protocolBase`, `Close()` closes the send channel; `SetSyncMode(true)` then
closes the same channel again and panics. -/
theorem close_then_SetSyncMode_panics :
    newProtocolBase.calls [Call.Close] =
        CallResult.returned
          { terminated := true, syncMode := false, sendChan := 0, nextChan := 1,
            closedChans := [0], receivers := [], joining := 0, closerCloses := 1 } ∧
      newProtocolBase.calls [Call.Close, Call.SetSyncMode true] =
        CallResult.panicked Panic.closeOfClosedChannel := by
  decide

/-- The method `Close()` is idempotent: a second call returns at once and
changes nothing. -/
theorem Close_idempotent (p p1 : protocolBase) (h : p.Close = CallResult.returned p1) :
    p1.Close = CallResult.returned p1 := by
  have ht : p1.terminated = true := by
    unfold protocolBase.Close at h
    split at h
    · rename_i ht
      cases h; exact ht
    · dsimp only at h
      split at h
      · unfold protocolBase.closeAndJoin protocolBase.closeSendChan
          protocolBase.recvWriterJoined at h
        dsimp only at h
        split at h
        · cases h
        · rename_i p2 hp2
          split at hp2
          · cases hp2
          · cases hp2
            dsimp only at h
            split at h
            · cases h
            · rename_i p3 hp3
              split at hp3
              · cases hp3
              · cases hp3; cases h; rfl
      · cases h; rfl
  simp [protocolBase.Close, ht]

/-- The statements `close(p.sendChan); <-p.writerJoined` touch neither
`terminated` nor the closer. -/
theorem protocolBase.closeAndJoin_fields (p p1 : protocolBase)
    (h : p.closeAndJoin = CallResult.returned p1) :
    p1.terminated = p.terminated ∧ p1.closerCloses = p.closerCloses := by
  unfold protocolBase.closeAndJoin protocolBase.closeSendChan protocolBase.recvWriterJoined at h
  split at h
  · cases h
  · rename_i p2 hp2
    split at hp2
    · cases hp2
    · cases hp2
      dsimp only at h
      split at h
      · cases h
      · rename_i p3 hp3
        split at hp3
        · cases hp3
        · cases hp3; cases h; exact ⟨rfl, rfl⟩

/-- Every call keeps `closerOnce`, and `Close` leaves the protocol
terminated. -/
theorem protocolBase.call_closerOnce (p p1 : protocolBase) (c : Call)
    (hinv : p.closerOnce) (h : p.call c = CallResult.returned p1) :
    p1.closerOnce ∧ (p.terminated = true → p1.terminated = true) ∧
      (c = Call.Close → p1.terminated = true) := by
  unfold protocolBase.closerOnce at hinv ⊢
  cases c with
  | Close =>
    simp only [protocolBase.call, protocolBase.Close] at h
    split at h
    · rename_i ht
      cases h
      exact ⟨hinv, fun _ => ht, fun _ => ht⟩
    · rename_i ht
      rw [if_neg ht] at hinv
      split at h
      · obtain ⟨h1, h2⟩ := protocolBase.closeAndJoin_fields _ _ h
        dsimp only at h1 h2
        refine ⟨?_, fun _ => h1, fun _ => h1⟩
        rw [h1, h2, hinv]
        rfl
      · cases h
        refine ⟨?_, fun _ => rfl, fun _ => rfl⟩
        dsimp only
        rw [hinv]
        rfl
  | SetSyncMode val =>
    simp only [protocolBase.call, protocolBase.SetSyncMode] at h
    split at h
    · cases h
      exact ⟨hinv, fun ht => ht, fun hc => by cases hc⟩
    · split at h
      · obtain ⟨h1, h2⟩ := protocolBase.closeAndJoin_fields _ _ h
        dsimp only at h1 h2
        refine ⟨?_, fun ht => by rw [h1]; exact ht, fun hc => by cases hc⟩
        rw [h1, h2]
        exact hinv
      · cases h
        exact ⟨hinv, fun ht => ht, fun hc => by cases hc⟩

/-- In every sequence of calls on a fresh `protocolBase` that runs to its end,
the underlying connection is closed at most once, and exactly once when the
sequence contains a `Close()`. -/
theorem protocolBase.calls_close_once (cs : List Call) :
    ∀ (p p1 : protocolBase), p.closerOnce → p.calls cs = CallResult.returned p1 →
      p1.closerOnce ∧ (p.terminated = true ∨ Call.Close ∈ cs → p1.terminated = true) := by
  induction cs with
  | nil =>
    intro p p1 hinv h
    simp only [protocolBase.calls, CallResult.returned.injEq] at h
    subst h
    refine ⟨hinv, ?_⟩
    intro ht
    cases ht with
    | inl ht => exact ht
    | inr hc => cases hc
  | cons c rest ih =>
    intro p p1 hinv h
    simp only [protocolBase.calls] at h
    split at h
    · rename_i p2 hp2
      obtain ⟨h1, h2, h3⟩ := protocolBase.call_closerOnce p p2 c hinv hp2
      obtain ⟨h4, h5⟩ := ih p2 p1 h1 h
      refine ⟨h4, ?_⟩
      intro ht
      apply h5
      cases ht with
      | inl ht => exact Or.inl (h2 ht)
      | inr hc =>
        cases hc with
        | head => exact Or.inl (h3 rfl)
        | tail _ hm => exact Or.inr hm
    · rename_i hr
      exact absurd h (hr p1)

end dctk
